import Mathlib

/-! Verification development for `cpunion/youtube-downloader`.

A shallow embedding of the download-and-merge pipeline:

* `extractor/youtube_downloader.go`: `selectVideoFormat`, `selectAudioFormat`,
  `selectFormats`, `checkFileExists`, `makeSafeFilename`, `downloadAndMerge`;
* `progress/progress.go`: `Task.SetCurrent`, `Task.SetTotal`, `Task.SetSpeed`;
* `progress/ffmpeg_progress.go`: `ParseFFmpegProgress`.

Conventions.  Go text is a list of Unicode characters (titles, labels and MIME
types are valid UTF-8); where Go measures or slices a string in bytes
(`len`, `s[:200]`) the UTF-8 encoding is made explicit as a list of byte
values.  `int`, `int64` and `time.Duration` are 64-bit two's complement:
values are integers and results that can leave the range go through
`wrapInt64`.  Range loops follow the per-iteration variable semantics of
Go 1.22 and later.
-/

namespace YoutubeDownloader

/-! ## Go runtime and standard library -/

/-- Go text, as the sequence of its Unicode characters. -/
abbrev GoString := List Char

/-- Largest `int64` (and `int` on a 64-bit platform). -/
def maxInt64 : Int := 9223372036854775807

/-- Largest `uint64`. -/
def maxUint64 : Nat := 18446744073709551615

/-- Two's complement wrap-around of a 64-bit signed result. -/
def wrapInt64 (x : Int) : Int := (x + 9223372036854775808) % 18446744073709551616 - 9223372036854775808

/-- `strings.HasPrefix`. -/
def HasPrefix (s pre : GoString) : Bool := pre.isPrefixOf s

/-- `strings.TrimSuffix`: one trailing copy of `suffix` is removed when present. -/
def TrimSuffix (s suffix : GoString) : GoString :=
  if suffix.isSuffixOf s then s.take (s.length - suffix.length) else s

/-- `unicode.IsSpace`: the Latin-1 spaces and the code points with the
Unicode White_Space property. -/
def isSpace (c : Char) : Bool :=
  let n := c.toNat
  n == 9 || n == 10 || n == 11 || n == 12 || n == 13 || n == 32 || n == 0x85 || n == 0xA0 ||
  n == 0x1680 || (0x2000 ≤ n && n ≤ 0x200A) || n == 0x2028 || n == 0x2029 || n == 0x202F ||
  n == 0x205F || n == 0x3000

/-- `strings.TrimSpace`: leading and trailing white space removed. -/
def TrimSpace (s : GoString) : GoString :=
  ((s.dropWhile isSpace).reverse.dropWhile isSpace).reverse

/-- Error values of `strconv`. -/
inductive NumError where
  | invalid
  | outOfRange
deriving DecidableEq, Repr

/-- Digit loop of `strconv.ParseUint(s, 10, 64)`: `n` is the value read so
far.  A non-digit is a syntax error with value 0; a value that leaves
`uint64` stops the loop at once with the largest `uint64` and a range error. -/
def parseUintLoop : Nat → List Char → Nat × Option NumError
  | n, [] => (n, none)
  | n, c :: cs =>
    if 48 ≤ c.toNat ∧ c.toNat ≤ 57 then
      if n ≥ maxUint64 / 10 + 1 then (maxUint64, some .outOfRange)
      else if n * 10 + (c.toNat - 48) > maxUint64 then (maxUint64, some .outOfRange)
      else parseUintLoop (n * 10 + (c.toNat - 48)) cs
    else (0, some .invalid)

/-- `strconv.ParseUint(s, 10, 64)`. -/
def ParseUint (s : GoString) : Nat × Option NumError :=
  if s = [] then (0, some .invalid) else parseUintLoop 0 s

/-- `strconv.ParseInt(s, 10, 64)`: optional sign, then `ParseUint`; a range
error saturates at the bounds of `int64`, and the value is returned together
with the error. -/
def ParseInt (s : GoString) : Int × Option NumError :=
  match s with
  | [] => (0, some .invalid)
  | c :: cs =>
    let neg := c == '-'
    let body := if c == '+' || c == '-' then cs else c :: cs
    match ParseUint body with
    | (_, some .invalid) => (0, some .invalid)
    | (un, _) =>
      if !neg && un ≥ 9223372036854775808 then (9223372036854775807, some .outOfRange)
      else if neg && un > 9223372036854775808 then (-9223372036854775808, some .outOfRange)
      else (if neg then -(un : Int) else (un : Int), none)

/-- `strconv.Atoi` on a 64-bit platform: its fast path (fewer than 19 bytes)
and `ParseInt(s, 10, 0)` give the same value and error. -/
def Atoi (s : GoString) : Int × Option NumError := ParseInt s

/-! ## Data model (`youtube.Format`, `YouTubeDownloader`) -/

/-- The fields of `youtube.Format` the pipeline reads. -/
structure Format where
  ItagNo : Int
  MimeType : GoString
  QualityLabel : GoString
  Bitrate : Int
  AudioChannels : Int
  ContentLength : Int
deriving DecidableEq, Repr

/-- The zero value `youtube.Format{}`. -/
def Format.zero : Format := ⟨0, [], [], 0, 0, 0⟩

/-- The configuration fields of `YouTubeDownloader`. -/
structure YouTubeDownloader where
  MaxRes : Int
  OnlyMP4 : Bool
  overwrite : Bool
deriving DecidableEq, Repr

/-- `NewYouTubeDownloader`: ceiling 1080, MP4 only, no overwrite. -/
def NewYouTubeDownloader : YouTubeDownloader := ⟨1080, true, false⟩

/-- Errors returned by the extractor. -/
inductive Error where
  | noSuitableVideoFormat
  | noSuitableAudioFormat
  | statFailed (errno : Nat)
  | getStreamFailed
  | createFailed
  | saveStreamFailed
  | renameFailed
  | mergeFailed
deriving DecidableEq, Repr

deriving instance DecidableEq for Except

/-! ## Format selection -/

/-- The `quality` local of `selectVideoFormat`: 0 for an empty label, else
`Atoi` of the label without a trailing `p`, the error dropped. -/
def quality (format : Format) : Int :=
  if format.QualityLabel ≠ [] then (Atoi (TrimSuffix format.QualityLabel ['p'])).1 else 0

/-- One iteration of the loop of `selectVideoFormat` on the pair
`(videoFormat, maxVideoQuality)`. -/
def selectVideoStep (yd : YouTubeDownloader) (st : Format × Int) (format : Format) : Format × Int :=
  if HasPrefix format.MimeType "video/".toList then
    if quality format > st.2 ∧ quality format ≤ yd.MaxRes then (format, quality format) else st
  else st

/-- `selectVideoFormat`. -/
def selectVideoFormat (yd : YouTubeDownloader) (formats : List Format) : Except Error Format :=
  let st := formats.foldl (selectVideoStep yd) (Format.zero, 0)
  if st.2 = 0 then .error .noSuitableVideoFormat else .ok st.1

/-- One iteration of the loop of `selectAudioFormat` on the pair
`(audioFormat, maxAudioBitrate)`; `none` is the nil pointer. -/
def selectAudioStep (st : Option Format × Int) (format : Format) : Option Format × Int :=
  if HasPrefix format.MimeType "audio/".toList then
    if format.Bitrate > st.2 then (some format, format.Bitrate) else st
  else st

/-- `selectAudioFormat`. -/
def selectAudioFormat (formats : List Format) : Except Error Format :=
  match (formats.foldl selectAudioStep (none, 0)).1 with
  | none => .error .noSuitableAudioFormat
  | some audioFormat => .ok audioFormat

/-- `selectFormats`: the video variant, and an audio variant only when the
video variant has no audio channel. -/
def selectFormats (yd : YouTubeDownloader) (formats : List Format) :
    Except Error (Format × Option Format) :=
  match selectVideoFormat yd formats with
  | .error err => .error err
  | .ok videoFormat =>
    if videoFormat.AudioChannels = 0 then
      match selectAudioFormat formats with
      | .error err => .error err
      | .ok audioFormat => .ok (videoFormat, some audioFormat)
    else .ok (videoFormat, none)

/-- Running-maximum step shared by the two selection loops: the state is
replaced when the entry is a candidate whose key is strictly above the bound. -/
def bestStep {α β : Type} (cand : α → Bool) (key : α → Int) (inj : α → β)
    (st : β × Int) (x : α) : β × Int :=
  if cand x = true ∧ key x > st.2 then (inj x, key x) else st

/-- A variant of video kind within the ceiling of `yd`. -/
def videoCandidate (yd : YouTubeDownloader) (g : Format) : Bool :=
  HasPrefix g.MimeType "video/".toList && decide (quality g ≤ yd.MaxRes)

/-- A variant of audio kind. -/
def isAudio (g : Format) : Bool := HasPrefix g.MimeType "audio/".toList

/-! ## File names -/

/-- Byte strings: a Go string as `len` and slicing see it. -/
abbrev Bytes := List Nat

/-- UTF-8 encoding of one character (`utf8.EncodeRune`). -/
def utf8EncodeRune (c : Char) : Bytes :=
  if c.toNat < 0x80 then [c.toNat]
  else if c.toNat < 0x800 then [0xC0 + c.toNat / 64, 0x80 + c.toNat % 64]
  else if c.toNat < 0x10000 then
    [0xE0 + c.toNat / 4096, 0x80 + c.toNat / 64 % 64, 0x80 + c.toNat % 64]
  else
    [0xF0 + c.toNat / 262144, 0x80 + c.toNat / 4096 % 64, 0x80 + c.toNat / 64 % 64,
      0x80 + c.toNat % 64]

/-- The bytes of a Go string holding the text `s`. -/
def utf8 : GoString → Bytes
  | [] => []
  | c :: cs => utf8EncodeRune c ++ utf8 cs

/-- Membership in the class of the pattern of `makeSafeFilename`: one of
`<` (60), `>` (62), `:` (58), the double quote (34), `/` (47), the backslash
(92), `|` (124), `?` (63), `*` (42). -/
def isDisallowed (c : Char) : Bool :=
  c.toNat == 60 || c.toNat == 62 || c.toNat == 58 || c.toNat == 34 || c.toNat == 47 ||
  c.toNat == 92 || c.toNat == 124 || c.toNat == 63 || c.toNat == 42

/-- `makeSafeFilename`: every character of the class becomes `_`, surrounding
white space is trimmed, an empty result becomes `video`, and a result of more
than 200 bytes (`len(safe) > 200`) is cut to its first 200 bytes
(`safe[:200]`). -/
def makeSafeFilename (filename : GoString) : Bytes :=
  let safe := filename.map (fun c => if isDisallowed c then '_' else c)
  let safe := TrimSpace safe
  let safe := if safe = [] then "video".toList else safe
  if (utf8 safe).length > 200 then (utf8 safe).take 200 else utf8 safe

/-! ## Filesystem and external actions -/

/-- File names as the operating system receives them. -/
abbrev Path := Bytes

/-- The outcome of `os.Stat` on a path. -/
inductive StatResult where
  /-- A `FileInfo` whose `Size()` is `size`. -/
  | info (size : Int)
  /-- An error for which `os.IsNotExist` holds. -/
  | notExist
  /-- Any other error. -/
  | failure (errno : Nat)
deriving DecidableEq, Repr

/-- The filesystem, as what `os.Stat` answers on each path. -/
abbrev FS := Path → StatResult

/-- The filesystem with the answer on `p` replaced. -/
def FS.set (fs : FS) (p : Path) (r : StatResult) : FS :=
  fun q => if q = p then r else fs q

/-- What a call of `downloadStream` meets. -/
inductive StreamOutcome where
  /-- `client.GetStream` fails. -/
  | noStream
  /-- `os.Create` fails. -/
  | notCreated
  /-- The file is created and `n` bytes reach it; `ok` tells whether
  `io.Copy` ended without error. -/
  | copied (n : Int) (ok : Bool)
deriving DecidableEq, Repr

/-- What the external process of `mergeVideoAudio` does. -/
inductive MergeOutcome where
  /-- The process cannot be started, or exits with a non-zero status;
  `left` is the size of the output file it leaves behind, if any. -/
  | failed (left : Option Int)
  /-- Exit status 0, the output file has `size` bytes. -/
  | succeeded (size : Int)
deriving DecidableEq, Repr

/-- The answers of the environment during one run of `downloadAndMerge`. -/
structure World where
  videoStream : StreamOutcome
  audioStream : StreamOutcome
  ffmpeg : MergeOutcome
  renameOk : Bool
  removeOk : Bool
deriving DecidableEq, Repr

/-- The external actions of a run, in order, with their results. -/
inductive Event where
  | download (format : Format) (filename : Path) (err : Option Error)
  | merge (video audio output : Path) (err : Option Error)
  | remove (filename : Path)
  | rename (oldpath newpath : Path) (err : Option Error)
deriving DecidableEq, Repr

/-- `checkFileExists`. -/
def checkFileExists (fs : FS) (filename : Path) (expectedSize : Int) : Bool × Option Error :=
  match fs filename with
  | .notExist => (false, none)
  | .failure errno => (false, some (.statFailed errno))
  | .info size => (decide (size = expectedSize), none)

/-- `downloadStream`: the stream is opened, the file created (truncated),
and the bytes copied. -/
def downloadStream (o : StreamOutcome) (fs : FS) (filename : Path) : FS × Option Error :=
  match o with
  | .noStream => (fs, some .getStreamFailed)
  | .notCreated => (fs, some .createFailed)
  | .copied n ok => (fs.set filename (.info n), if ok then none else some .saveStreamFailed)

/-- `mergeVideoAudio`: the external process writes `outputFilename`. -/
def mergeVideoAudio (o : MergeOutcome) (fs : FS) (outputFilename : Path) : FS × Option Error :=
  match o with
  | .failed none => (fs, some .mergeFailed)
  | .failed (some n) => (fs.set outputFilename (.info n), some .mergeFailed)
  | .succeeded n => (fs.set outputFilename (.info n), none)

/-- `os.Remove`, its error dropped as in the source. -/
def Remove (ok : Bool) (fs : FS) (filename : Path) : FS :=
  match fs filename with
  | .info _ => if ok then fs.set filename .notExist else fs
  | _ => fs

/-- `os.Rename`: fails when the old path has no file or the system refuses. -/
def Rename (ok : Bool) (fs : FS) (oldpath newpath : Path) : FS × Option Error :=
  match fs oldpath with
  | .info n =>
    if ok then ((fs.set newpath (.info n)).set oldpath .notExist, none)
    else (fs, some .renameFailed)
  | _ => (fs, some .renameFailed)

/-- The `videoFilename` local of `downloadAndMerge`. -/
def videoFilename (title : GoString) : Path := makeSafeFilename title ++ utf8 "_video.mp4".toList

/-- The `audioFilename` local of `downloadAndMerge`. -/
def audioFilename (title : GoString) : Path := makeSafeFilename title ++ utf8 "_audio.mp4".toList

/-- The `outputFilename` local of `downloadAndMerge`. -/
def outputFilename (title : GoString) : Path := makeSafeFilename title ++ utf8 ".mp4".toList

/-- How a run ends: the function returns (with or without an error), or the
runtime stops it on a nil pointer dereference. -/
inductive Outcome where
  | returned (err : Option Error)
  | nilDereference
deriving DecidableEq, Repr

/-- A finished run: how it ended, the filesystem it leaves, its actions. -/
structure Run where
  outcome : Outcome
  fs : FS
  trace : List Event

/-- `downloadAndMerge`.  The argument of the third presence check,
`videoFormat.ContentLength+audioFormat.ContentLength`, reads through
`audioFormat`: with a nil `audioFormat` the run stops there. -/
def downloadAndMerge (yd : YouTubeDownloader) (w : World) (fs : FS) (videoFormat : Format)
    (audioFormat : Option Format) (title : GoString) : Run :=
  let videoFilename := videoFilename title
  let audioFilename := audioFilename title
  let outputFilename := outputFilename title
  match checkFileExists fs videoFilename videoFormat.ContentLength with
  | (_, some err) => ⟨.returned (some err), fs, []⟩
  | (videoExists, none) =>
    let dv := downloadStream w.videoStream fs videoFilename
    let fs1 := if !videoExists then dv.1 else fs
    let tr1 := if !videoExists then [Event.download videoFormat videoFilename dv.2] else []
    match audioFormat with
    | none => ⟨.nilDereference, fs1, tr1⟩
    | some af =>
      match checkFileExists fs1 audioFilename af.ContentLength with
      | (_, some err) => ⟨.returned (some err), fs1, tr1⟩
      | (audioExists, none) =>
        let da := downloadStream w.audioStream fs1 audioFilename
        let fs2 := if !audioExists then da.1 else fs1
        let tr2 := if !audioExists then tr1 ++ [Event.download af audioFilename da.2] else tr1
        match checkFileExists fs2 outputFilename
            (wrapInt64 (videoFormat.ContentLength + af.ContentLength)) with
        | (_, some err) => ⟨.returned (some err), fs2, tr2⟩
        | (targetExists, none) =>
          if !targetExists then
            let m := mergeVideoAudio w.ffmpeg fs2 outputFilename
            let tr3 := tr2 ++ [Event.merge videoFilename audioFilename outputFilename m.2]
            match m.2 with
            | some err => ⟨.returned (some err), m.1, tr3⟩
            | none =>
              if !yd.overwrite then
                ⟨.returned none, Remove w.removeOk (Remove w.removeOk m.1 videoFilename) audioFilename,
                  tr3 ++ [Event.remove videoFilename, Event.remove audioFilename]⟩
              else ⟨.returned none, m.1, tr3⟩
          else if !videoExists then
            let r := Rename w.renameOk fs2 videoFilename outputFilename
            ⟨.returned r.2, r.1, tr2 ++ [Event.rename videoFilename outputFilename r.2]⟩
          else ⟨.returned none, fs2, tr2⟩

/-! ## Progress tracker (`progress/progress.go`) -/

/-- The fields of `Task` other than the rendering handle `Bar`. -/
structure Task where
  Name : GoString
  Total : Int
  Current : Int
  IsMergeTask : Bool
deriving DecidableEq, Repr

/-- `Task.SetCurrent`: a value above `Total` is replaced by `Total`. -/
def Task.SetCurrent (t : Task) (current : Int) : Task :=
  { t with Current := if current > t.Total then t.Total else current }

/-- `Task.SetTotal`. -/
def Task.SetTotal (t : Task) (total : Int) : Task :=
  { t with Total := total }

/-- `Task.SetSpeed`: only the label of the bar changes, no field of the task. -/
def Task.SetSpeed (t : Task) : Task := t

/-! ## Transcode progress parser (`progress/ffmpeg_progress.go`) -/

/-- `time.Millisecond`, in the nanoseconds of `time.Duration`. -/
def Millisecond : Int := 1000000

/-- `time.Second`. -/
def Second : Int := 1000 * Millisecond

/-- `time.Minute`. -/
def Minute : Int := 60 * Second

/-- `time.Hour`. -/
def Hour : Int := 60 * Minute

/-- The class `\d` of Go regular expressions: an ASCII digit. -/
def isDigit (c : Char) : Bool := decide (48 ≤ c.toNat) && decide (c.toNat ≤ 57)

/-- A match of the pattern `Duration: (\d+):(\d+):(\d+)\.(\d+)` starting at
the head of `s`, as its four groups.  A group `\d+` is a longest run of
digits: the first three are followed by a literal that is no digit, the
last one is greedy. -/
def matchDurationAt (s : GoString) : Option (GoString × GoString × GoString × GoString) :=
  if "Duration: ".toList.isPrefixOf s then
    let r := s.drop 10
    let hh := r.takeWhile isDigit
    match r.dropWhile isDigit with
    | ':' :: r =>
      let mm := r.takeWhile isDigit
      match r.dropWhile isDigit with
      | ':' :: r =>
        let ss := r.takeWhile isDigit
        match r.dropWhile isDigit with
        | '.' :: r =>
          let ff := r.takeWhile isDigit
          if hh ≠ [] ∧ mm ≠ [] ∧ ss ≠ [] ∧ ff ≠ [] then some (hh, mm, ss, ff) else none
        | _ => none
      | _ => none
    | _ => none
  else none

/-- `durationRegex.FindStringSubmatch(line)`: the groups of the leftmost
match, `none` when the line has no match. -/
def findDuration : GoString → Option (GoString × GoString × GoString × GoString)
  | [] => none
  | c :: cs =>
    match matchDurationAt (c :: cs) with
    | some groups => some groups
    | none => findDuration cs

/-- `strings.SplitN(line, "=", 2)` when it gives two parts: the text before
the first `=` and the text after it; `none` when the line has no `=`. -/
def splitKeyValue : GoString → Option (GoString × GoString)
  | [] => none
  | c :: cs =>
    if c = '=' then some ([], cs)
    else match splitKeyValue cs with
      | some (k, v) => some (c :: k, v)
      | none => none

/-- The body of the scanning loop of `ParseFFmpegProgress` for one line. -/
def parseLine (task : Task) (line : GoString) : Task :=
  match findDuration line with
  | some (hh, mm, ss, ff) =>
    let hours := (Atoi hh).1
    let minutes := (Atoi mm).1
    let seconds := (Atoi ss).1
    let milliseconds := (Atoi ff).1
    let totalDuration :=
      wrapInt64 (wrapInt64 (wrapInt64 (wrapInt64 (hours * Hour) + wrapInt64 (minutes * Minute))
        + wrapInt64 (seconds * Second)) + wrapInt64 (milliseconds * Millisecond))
    task.SetTotal totalDuration
  | none =>
    match splitKeyValue line with
    | none => task
    | some (k, v) =>
      let key := TrimSpace k
      let value := TrimSpace v
      if key = "out_time_ms".toList then
        match ParseInt value with
        | (ms, none) => task.SetCurrent (wrapInt64 (Int.tdiv ms 1000 * Millisecond))
        | (_, some _) => task
      else if key = "speed".toList then task.SetSpeed
      else if key = "progress".toList then
        if value = "end".toList then task.SetCurrent task.Total else task
      else task

/-- `ParseFFmpegProgress` on the lines the scanner delivers. -/
def ParseFFmpegProgress (lines : List GoString) (task : Task) : Task :=
  lines.foldl parseLine task

/-- A merge task as `NewTask("Merging", total, true)` creates it. -/
def mergeTask (total : Int) : Task := ⟨"Merging".toList, total, 0, true⟩

/-! ## Sample inputs and helper notions for the statements -/

/-- Sample catalogue: two 1080p video variants, a 2160p one above the
default ceiling, a 360p one, a muxed 720p one and two audio variants. -/
def sampleFormats : List Format :=
  [ ⟨134, "video/mp4".toList, "360p".toList, 600000, 0, 1000⟩,
    ⟨137, "video/mp4".toList, "1080p".toList, 4000000, 0, 5000⟩,
    ⟨248, "video/webm".toList, "1080p".toList, 3000000, 0, 4000⟩,
    ⟨313, "video/webm".toList, "2160p".toList, 9000000, 0, 9000⟩,
    ⟨22, "video/mp4".toList, "720p".toList, 2000000, 2, 3000⟩,
    ⟨140, "audio/mp4".toList, [], 128000, 2, 300⟩,
    ⟨251, "audio/webm".toList, [], 128000, 2, 310⟩ ]

/-- A filesystem holding exactly the listed files. -/
def fsOf (files : List (Path × StatResult)) : FS :=
  fun p => match files.lookup p with
    | some r => r
    | none => .notExist

/-- The muxed 720p variant of the sample catalogue (itag 22, two audio channels). -/
def muxedFormat : Format := ⟨22, "video/mp4".toList, "720p".toList, 2000000, 2, 3000⟩

/-- The 1080p video-only variant (itag 137) of the sample catalogue. -/
def videoOnlyFormat : Format := ⟨137, "video/mp4".toList, "1080p".toList, 4000000, 0, 5000⟩

/-- The audio variant (itag 140) of the sample catalogue. -/
def audioOnlyFormat : Format := ⟨140, "audio/mp4".toList, [], 128000, 2, 300⟩

/-- An environment in which every external action succeeds. -/
def goodWorld : World := ⟨.copied 5000 true, .copied 300 true, .succeeded 4321, true, true⟩

/-- The number a run of decimal digits denotes. -/
def digitsValue (ds : GoString) : Nat :=
  ds.foldl (fun n c => n * 10 + (c.toNat - 48)) 0

/-! # Theorems -/

/-! ## Format selection -/

theorem bestStep_foldl {α β : Type} (cand : α → Bool) (key : α → Int) (inj : α → β)
    (b0 : β) (l : List α) :
    ((l.foldl (bestStep cand key inj) (b0, 0)).2 = 0 ∧
        (l.foldl (bestStep cand key inj) (b0, 0)).1 = b0 ∧
        ∀ g ∈ l, cand g = true → key g ≤ 0) ∨
    (0 < (l.foldl (bestStep cand key inj) (b0, 0)).2 ∧
      ∃ pre f post, l = pre ++ f :: post ∧
        (l.foldl (bestStep cand key inj) (b0, 0)).1 = inj f ∧ cand f = true ∧
        key f = (l.foldl (bestStep cand key inj) (b0, 0)).2 ∧
        (∀ g ∈ pre, cand g = true → key g < key f) ∧
        (∀ g ∈ post, cand g = true → key g ≤ key f)) := by
  induction l using List.reverseRecOn with
  | nil => left; simp
  | append_singleton l a ih =>
    rw [List.foldl_append]
    simp only [List.foldl_cons, List.foldl_nil]
    generalize l.foldl (bestStep cand key inj) (b0, 0) = st at ih ⊢
    obtain ⟨b, m⟩ := st
    simp only at ih
    by_cases h : cand a = true ∧ key a > m
    · right
      simp only [bestStep, if_pos h]
      rcases ih with ⟨hm, _, hall⟩ | ⟨hm, pre, f, post, hl, _, _, hk, hpre, hpost⟩
      · refine ⟨by omega, l, a, [], rfl, rfl, h.1, rfl, ?_, by simp⟩
        intro g hg hc
        have := hall g hg hc
        omega
      · refine ⟨by omega, l, a, [], rfl, rfl, h.1, rfl, ?_, by simp⟩
        intro g hg hc
        rw [hl] at hg
        rcases List.mem_append.1 hg with hg | hg
        · have := hpre g hg hc
          omega
        · rcases List.mem_cons.1 hg with hg | hg
          · subst hg; omega
          · have := hpost g hg hc
            omega
    · simp only [bestStep, if_neg h]
      rcases ih with ⟨hm, hb, hall⟩ | ⟨hm, pre, f, post, hl, hb, hc, hk, hpre, hpost⟩
      · left
        refine ⟨hm, hb, ?_⟩
        intro g hg hcg
        rcases List.mem_append.1 hg with hg | hg
        · exact hall g hg hcg
        · have hga : g = a := by simpa using hg
          subst hga
          by_contra hlt
          exact h ⟨hcg, by omega⟩
      · right
        refine ⟨hm, pre, f, post ++ [a], by simp [hl], hb, hc, hk, hpre, ?_⟩
        intro g hg hcg
        rcases List.mem_append.1 hg with hg | hg
        · exact hpost g hg hcg
        · have hga : g = a := by simpa using hg
          subst hga
          by_contra hlt
          exact h ⟨hcg, by omega⟩

theorem selectVideoStep_eq (yd : YouTubeDownloader) :
    selectVideoStep yd = bestStep (videoCandidate yd) quality id := by
  funext st format
  simp only [selectVideoStep, bestStep, videoCandidate, Bool.and_eq_true, decide_eq_true_eq, id]
  by_cases h1 : HasPrefix format.MimeType "video/".toList = true
  · by_cases h2 : quality format > st.2 ∧ quality format ≤ yd.MaxRes
    · rw [if_pos h1, if_pos h2, if_pos ⟨⟨h1, h2.2⟩, h2.1⟩]
    · rw [if_pos h1, if_neg h2, if_neg (fun h => h2 ⟨h.2, h.1.2⟩)]
  · rw [if_neg h1, if_neg (fun h => h1 h.1.1)]

theorem selectAudioStep_eq :
    selectAudioStep = bestStep isAudio Format.Bitrate some := by
  funext st format
  simp only [selectAudioStep, bestStep, isAudio]
  by_cases h1 : HasPrefix format.MimeType "audio/".toList = true
  · by_cases h2 : format.Bitrate > st.2
    · rw [if_pos h1, if_pos h2, if_pos ⟨h1, h2⟩]
    · rw [if_pos h1, if_neg h2, if_neg (fun h => h2 h.2)]
  · rw [if_neg h1, if_neg (fun h => h1 h.1)]

/-- C1 as stated fails: a list whose only video variant has an empty quality
label (quality 0, within the ceiling 1080) is rejected, so a variant of
quality 0 never wins. -/
theorem selectVideoFormat_quality_zero_rejected :
    ¬ (∀ (yd : YouTubeDownloader) (formats : List Format),
        (∃ g ∈ formats, HasPrefix g.MimeType "video/".toList = true ∧ quality g ≤ yd.MaxRes) →
        ∃ f, selectVideoFormat yd formats = .ok f) := by
  intro h
  obtain ⟨f, hf⟩ := h NewYouTubeDownloader [⟨18, "video/mp4".toList, [], 0, 2, 100⟩]
    ⟨_, List.mem_singleton_self _, by decide, by decide⟩
  have hE : selectVideoFormat NewYouTubeDownloader [⟨18, "video/mp4".toList, [], 0, 2, 100⟩]
      = .error .noSuitableVideoFormat := by decide
  rw [hE] at hf
  cases hf

/-- C1, amended: when some video-kind variant has a quality in `1..MaxRes`,
`selectVideoFormat` returns the first variant in list order among the
video-kind variants of maximum quality within the ceiling; when no video-kind
variant within the ceiling has a positive quality, it fails. -/
theorem selectVideoFormat_spec (yd : YouTubeDownloader) (formats : List Format) :
    ((∃ g ∈ formats, HasPrefix g.MimeType "video/".toList = true ∧
          0 < quality g ∧ quality g ≤ yd.MaxRes) →
      ∃ pre f post, formats = pre ++ f :: post ∧ selectVideoFormat yd formats = .ok f ∧
        HasPrefix f.MimeType "video/".toList = true ∧ 0 < quality f ∧ quality f ≤ yd.MaxRes ∧
        (∀ g ∈ pre, HasPrefix g.MimeType "video/".toList = true → quality g ≤ yd.MaxRes →
          quality g < quality f) ∧
        (∀ g ∈ post, HasPrefix g.MimeType "video/".toList = true → quality g ≤ yd.MaxRes →
          quality g ≤ quality f)) ∧
    ((∀ g ∈ formats, HasPrefix g.MimeType "video/".toList = true → quality g ≤ yd.MaxRes →
          quality g ≤ 0) →
      selectVideoFormat yd formats = .error .noSuitableVideoFormat) := by
  have key := bestStep_foldl (videoCandidate yd) quality id Format.zero formats
  rw [← selectVideoStep_eq] at key
  have hc : ∀ g, videoCandidate yd g = true ↔
      (HasPrefix g.MimeType "video/".toList = true ∧ quality g ≤ yd.MaxRes) := by
    intro g; simp [videoCandidate]
  constructor
  · rintro ⟨g, hg, hv, hpos, hle⟩
    rcases key with ⟨_, _, hall⟩ | ⟨hm, pre, f, post, hl, hb, hcf, hk, hpre, hpost⟩
    · have := hall g hg ((hc g).2 ⟨hv, hle⟩)
      omega
    · refine ⟨pre, f, post, hl, ?_, ((hc f).1 hcf).1, by omega, ((hc f).1 hcf).2, ?_, ?_⟩
      · simp only [selectVideoFormat]
        rw [if_neg (by omega), hb]; rfl
      · intro g hg hv hle; exact hpre g hg ((hc g).2 ⟨hv, hle⟩)
      · intro g hg hv hle; exact hpost g hg ((hc g).2 ⟨hv, hle⟩)
  · intro hall
    rcases key with ⟨hm, _, _⟩ | ⟨hm, pre, f, post, hl, _, hcf, hk, _, _⟩
    · simp only [selectVideoFormat]; rw [if_pos hm]
    · have hf : f ∈ formats := by rw [hl]; simp
      have := hall f hf ((hc f).1 hcf).1 ((hc f).1 hcf).2
      omega

/-- Witness for `selectVideoFormat_spec`: the sample catalogue has a 360p
video variant, so a maximal variant within the ceiling 1080 is returned; the
empty catalogue is rejected. -/
theorem selectVideoFormat_spec_witness :
    (∃ pre f post, sampleFormats = pre ++ f :: post ∧
        selectVideoFormat NewYouTubeDownloader sampleFormats = .ok f ∧
        HasPrefix f.MimeType "video/".toList = true ∧ 0 < quality f ∧
        quality f ≤ NewYouTubeDownloader.MaxRes ∧
        (∀ g ∈ pre, HasPrefix g.MimeType "video/".toList = true →
          quality g ≤ NewYouTubeDownloader.MaxRes → quality g < quality f) ∧
        (∀ g ∈ post, HasPrefix g.MimeType "video/".toList = true →
          quality g ≤ NewYouTubeDownloader.MaxRes → quality g ≤ quality f)) ∧
    selectVideoFormat NewYouTubeDownloader [] = .error .noSuitableVideoFormat :=
  ⟨(selectVideoFormat_spec NewYouTubeDownloader sampleFormats).1
      ⟨⟨134, "video/mp4".toList, "360p".toList, 600000, 0, 1000⟩, by decide, by decide,
        by decide, by decide⟩,
    (selectVideoFormat_spec NewYouTubeDownloader []).2 (by simp)⟩

theorem selectAudioFormat_spec (formats : List Format) :
    ((∃ g ∈ formats, isAudio g = true ∧ 0 < g.Bitrate) →
      ∃ pre a post, formats = pre ++ a :: post ∧ selectAudioFormat formats = .ok a ∧
        isAudio a = true ∧ 0 < a.Bitrate ∧
        (∀ g ∈ pre, isAudio g = true → g.Bitrate < a.Bitrate) ∧
        (∀ g ∈ post, isAudio g = true → g.Bitrate ≤ a.Bitrate)) ∧
    ((∀ g ∈ formats, isAudio g = true → g.Bitrate ≤ 0) →
      selectAudioFormat formats = .error .noSuitableAudioFormat) := by
  have key := bestStep_foldl isAudio Format.Bitrate some none formats
  rw [← selectAudioStep_eq] at key
  constructor
  · rintro ⟨g, hg, ha, hpos⟩
    rcases key with ⟨_, _, hall⟩ | ⟨hm, pre, f, post, hl, hb, hcf, hk, hpre, hpost⟩
    · have := hall g hg ha
      omega
    · refine ⟨pre, f, post, hl, ?_, hcf, by omega, hpre, hpost⟩
      simp only [selectAudioFormat]
      rw [hb]
  · intro hall
    rcases key with ⟨_, hb, _⟩ | ⟨hm, pre, f, post, hl, _, hcf, hk, _, _⟩
    · simp only [selectAudioFormat]
      rw [hb]
    · have hf : f ∈ formats := by rw [hl]; simp
      have := hall f hf hcf
      omega

/-- C2 as stated fails: with a selected video variant that has no audio
channel and an audio-kind variant of bitrate 0 in the list, `selectFormats`
fails although an audio-kind variant exists. -/
theorem selectFormats_zero_bitrate_rejected :
    ¬ (∀ (yd : YouTubeDownloader) (formats : List Format) (v : Format),
        selectVideoFormat yd formats = .ok v → v.AudioChannels = 0 →
        (∃ g ∈ formats, HasPrefix g.MimeType "audio/".toList = true) →
        ∃ a, selectFormats yd formats = .ok (v, some a)) := by
  intro h
  obtain ⟨a, ha⟩ := h NewYouTubeDownloader
    [⟨137, "video/mp4".toList, "1080p".toList, 4000000, 0, 5000⟩,
      ⟨140, "audio/mp4".toList, [], 0, 2, 300⟩]
    ⟨137, "video/mp4".toList, "1080p".toList, 4000000, 0, 5000⟩ (by decide) (by decide)
    ⟨⟨140, "audio/mp4".toList, [], 0, 2, 300⟩, by decide, by decide⟩
  have hE : selectFormats NewYouTubeDownloader
      [⟨137, "video/mp4".toList, "1080p".toList, 4000000, 0, 5000⟩,
        ⟨140, "audio/mp4".toList, [], 0, 2, 300⟩] = .error .noSuitableAudioFormat := by decide
  rw [hE] at ha
  cases ha

/-- C2, amended: when the selected video variant has audio-channel count 0
and some audio-kind variant has a positive bitrate, `selectFormats` succeeds
and its audio variant is the first entry in list order among the audio-kind
entries of greatest bitrate; when no audio-kind entry has a positive bitrate
(in particular when there is none), `selectFormats` fails. -/
theorem selectFormats_audio_spec (yd : YouTubeDownloader) (formats : List Format) (v : Format)
    (hv : selectVideoFormat yd formats = .ok v) (hch : v.AudioChannels = 0) :
    ((∃ g ∈ formats, HasPrefix g.MimeType "audio/".toList = true ∧ 0 < g.Bitrate) →
      ∃ pre a post, formats = pre ++ a :: post ∧
        selectFormats yd formats = .ok (v, some a) ∧
        HasPrefix a.MimeType "audio/".toList = true ∧
        (∀ g ∈ pre, HasPrefix g.MimeType "audio/".toList = true → g.Bitrate < a.Bitrate) ∧
        (∀ g ∈ post, HasPrefix g.MimeType "audio/".toList = true → g.Bitrate ≤ a.Bitrate)) ∧
    ((∀ g ∈ formats, HasPrefix g.MimeType "audio/".toList = true → g.Bitrate ≤ 0) →
      selectFormats yd formats = .error .noSuitableAudioFormat) := by
  have key := selectAudioFormat_spec formats
  constructor
  · intro hex
    obtain ⟨pre, a, post, hl, hsel, ha, -, hpre, hpost⟩ := key.1 hex
    refine ⟨pre, a, post, hl, ?_, ha, hpre, hpost⟩
    simp only [selectFormats, hv, hsel, if_pos hch]
  · intro hall
    have hsel := key.2 hall
    simp only [selectFormats, hv, hsel, if_pos hch]

/-- Witness for `selectFormats_audio_spec` on the sample catalogue: the
selected video variant (itag 137) has no audio channel and there are two
audio variants of bitrate 128000. -/
theorem selectFormats_audio_spec_witness :
    (∃ pre a post, sampleFormats = pre ++ a :: post ∧
        selectFormats NewYouTubeDownloader sampleFormats
          = .ok (⟨137, "video/mp4".toList, "1080p".toList, 4000000, 0, 5000⟩, some a) ∧
        HasPrefix a.MimeType "audio/".toList = true ∧
        (∀ g ∈ pre, HasPrefix g.MimeType "audio/".toList = true → g.Bitrate < a.Bitrate) ∧
        (∀ g ∈ post, HasPrefix g.MimeType "audio/".toList = true → g.Bitrate ≤ a.Bitrate)) :=
  (selectFormats_audio_spec NewYouTubeDownloader sampleFormats
      ⟨137, "video/mp4".toList, "1080p".toList, 4000000, 0, 5000⟩ (by decide) (by decide)).1
    ⟨⟨140, "audio/mp4".toList, [], 128000, 2, 300⟩, by decide, by decide, by decide⟩

/-! ## File presence check -/

/-- C3: `checkFileExists` answers `(true, nil)` exactly when the file exists
with byte length `n`; it answers `(false, nil)` when the file does not exist
or exists with another length; it returns an error exactly when `os.Stat`
fails for a reason other than "file does not exist", and then the answer is
`false` with the error of `os.Stat`. -/
theorem checkFileExists_spec (fs : FS) (filename : Path) (n : Int) :
    (checkFileExists fs filename n = (true, none) ↔ fs filename = .info n) ∧
    (fs filename = .notExist → checkFileExists fs filename n = (false, none)) ∧
    (∀ size, fs filename = .info size → size ≠ n →
      checkFileExists fs filename n = (false, none)) ∧
    (∀ err, (checkFileExists fs filename n).2 = some err →
      ∃ errno, fs filename = .failure errno ∧ err = .statFailed errno) ∧
    (∀ errno, fs filename = .failure errno →
      checkFileExists fs filename n = (false, some (.statFailed errno))) := by
  unfold checkFileExists
  cases h : fs filename with
  | info size =>
    refine ⟨?_, ?_, ?_, ?_, ?_⟩
    · simp
    · intro h2; cases h2
    · intro size2 h2 hne
      cases h2
      simp [hne]
    · intro err h2; simp at h2
    · intro errno h2; cases h2
  | notExist => simp
  | failure errno =>
    refine ⟨by simp, by simp, by simp, ?_, ?_⟩
    · intro err h2
      exact ⟨errno, rfl, by simpa using h2.symm⟩
    · intro e h2
      cases h2
      rfl

/-! ## Download and merge -/

theorem videoFilename_ne_audioFilename (title : GoString) :
    videoFilename title ≠ audioFilename title := by
  unfold videoFilename audioFilename
  intro h
  exact absurd (List.append_cancel_left h) (by decide)

theorem videoFilename_ne_outputFilename (title : GoString) :
    videoFilename title ≠ outputFilename title := by
  unfold videoFilename outputFilename
  intro h
  exact absurd (List.append_cancel_left h) (by decide)

theorem audioFilename_ne_outputFilename (title : GoString) :
    audioFilename title ≠ outputFilename title := by
  unfold audioFilename outputFilename
  intro h
  exact absurd (List.append_cancel_left h) (by decide)

/-- C4 fails on the code: for a catalogue whose selected video variant
carries audio, `selectFormats` chooses no audio variant, and
`downloadAndMerge` with that absent audio format on an empty directory
downloads the video and then stops on a nil pointer dereference, before the
presence check of the merged file. -/
theorem downloadAndMerge_without_audio_crashes :
    selectFormats NewYouTubeDownloader [muxedFormat] = .ok (muxedFormat, none) ∧
    (downloadAndMerge NewYouTubeDownloader
        ⟨.copied 3000 true, .copied 0 true, .succeeded 1, true, true⟩
        (fsOf []) muxedFormat none "clip".toList).outcome = .nilDereference ∧
    (downloadAndMerge NewYouTubeDownloader
        ⟨.copied 3000 true, .copied 0 true, .succeeded 1, true, true⟩
        (fsOf []) muxedFormat none "clip".toList).trace
      = [Event.download muxedFormat (utf8 "clip_video.mp4".toList) none] := by
  refine ⟨by decide, by decide, by decide⟩

theorem downloadStream_other (o : StreamOutcome) (fs : FS) (p q : Path) (h : q ≠ p) :
    (downloadStream o fs p).1 q = fs q := by
  cases o <;> simp [downloadStream, FS.set, h]

theorem checkFileExists_no_failure (fs : FS) (p : Path) (n : Int)
    (h : ∀ errno, fs p ≠ .failure errno) :
    checkFileExists fs p n = (decide (fs p = .info n), none) := by
  unfold checkFileExists
  cases hp : fs p with
  | info size => simp
  | notExist => simp
  | failure errno => exact absurd hp (h errno)

theorem downloadAndMerge_nil_audio (yd : YouTubeDownloader) (w : World) (fs : FS)
    (v : Format) (title : GoString) (h : ∀ errno, fs (videoFilename title) ≠ .failure errno) :
    (downloadAndMerge yd w fs v none title).outcome = .nilDereference := by
  simp [downloadAndMerge, checkFileExists_no_failure fs _ _ h]

/-- C5 fails on the code.  The catalogue of a video-only variant (no audio
channel) and an audio variant selects both.  With the audio file and the
merged file `clip.mp4` present at their expected sizes 300 and 5300 and the
video file absent, the run downloads the video-only stream and renames it
over the finished merged file, which shrinks from 5300 to 5000 bytes, in the
branch whose message says the video already includes audio; the claim says
a freshly downloaded video file is not renamed.  With the video file present
at its declared size (download skipped) the run does nothing, where the claim
says the rename happens.  The part of the claim about a failing rename
holds: the run returns that error. -/
theorem downloadAndMerge_renames_fresh_download_over_output :
    selectFormats NewYouTubeDownloader [videoOnlyFormat, audioOnlyFormat]
      = .ok (videoOnlyFormat, some audioOnlyFormat) ∧
    (downloadAndMerge NewYouTubeDownloader goodWorld
        (fsOf [(utf8 "clip_audio.mp4".toList, .info 300), (utf8 "clip.mp4".toList, .info 5300)])
        videoOnlyFormat (some audioOnlyFormat) "clip".toList).trace
      = [Event.download videoOnlyFormat (utf8 "clip_video.mp4".toList) none,
          Event.rename (utf8 "clip_video.mp4".toList) (utf8 "clip.mp4".toList) none] ∧
    (downloadAndMerge NewYouTubeDownloader goodWorld
        (fsOf [(utf8 "clip_audio.mp4".toList, .info 300), (utf8 "clip.mp4".toList, .info 5300)])
        videoOnlyFormat (some audioOnlyFormat) "clip".toList).outcome = .returned none ∧
    (downloadAndMerge NewYouTubeDownloader goodWorld
        (fsOf [(utf8 "clip_audio.mp4".toList, .info 300), (utf8 "clip.mp4".toList, .info 5300)])
        videoOnlyFormat (some audioOnlyFormat) "clip".toList).fs (utf8 "clip.mp4".toList)
      = .info 5000 ∧
    (downloadAndMerge NewYouTubeDownloader goodWorld
        (fsOf [(utf8 "clip_video.mp4".toList, .info 5000),
          (utf8 "clip_audio.mp4".toList, .info 300), (utf8 "clip.mp4".toList, .info 5300)])
        videoOnlyFormat (some audioOnlyFormat) "clip".toList).trace = [] ∧
    (downloadAndMerge NewYouTubeDownloader
        ⟨.copied 5000 true, .copied 300 true, .succeeded 4321, false, true⟩
        (fsOf [(utf8 "clip_audio.mp4".toList, .info 300), (utf8 "clip.mp4".toList, .info 5300)])
        videoOnlyFormat (some audioOnlyFormat) "clip".toList).outcome
      = .returned (some .renameFailed) := by
  refine ⟨by decide, by decide, by decide, by decide, by decide, by decide⟩

theorem FS.set_same (fs : FS) (p : Path) (r : StatResult) : fs.set p r p = r := by
  simp [FS.set]

theorem FS.set_other (fs : FS) (p q : Path) (r : StatResult) (h : q ≠ p) :
    fs.set p r q = fs q := by
  simp [FS.set, h]

theorem Remove_other (ok : Bool) (fs : FS) (p q : Path) (h : q ≠ p) :
    Remove ok fs p q = fs q := by
  unfold Remove
  cases fs p <;> cases ok <;> simp [FS.set_other, h]

theorem Remove_same (fs : FS) (p : Path) (n : Int) (h : fs p = .info n) :
    Remove true fs p p = .notExist := by
  simp [Remove, h, FS.set_same]

theorem no_failure_of_notExist {r : StatResult} (h : r = .notExist) :
    ∀ errno, r ≠ .failure errno := by
  subst h
  intro errno h2
  cases h2

theorem no_failure_of_info {r : StatResult} {n : Int} (h : r = .info n) :
    ∀ errno, r ≠ .failure errno := by
  subst h
  intro errno h2
  cases h2

/-- What the code does on every run with an audio variant selected, no
failing presence check and the merged file present at the expected size: no
merge, and a rename of the video file onto the output name exactly when a
download of the video was attempted in this run. -/
theorem downloadAndMerge_target_present (yd : YouTubeDownloader) (w : World) (fs : FS)
    (v a : Format) (title : GoString)
    (hout : fs (outputFilename title)
      = .info (wrapInt64 (v.ContentLength + a.ContentLength)))
    (hvideo : ∀ errno, fs (videoFilename title) ≠ .failure errno)
    (haudio : ∀ errno, fs (audioFilename title) ≠ .failure errno) :
    (∀ x y z e, Event.merge x y z e ∉ (downloadAndMerge yd w fs v (some a) title).trace) ∧
    ((∃ e, Event.rename (videoFilename title) (outputFilename title) e ∈
        (downloadAndMerge yd w fs v (some a) title).trace) ↔
      fs (videoFilename title) ≠ .info v.ContentLength) ∧
    ((∃ e, Event.download v (videoFilename title) e ∈
        (downloadAndMerge yd w fs v (some a) title).trace) ↔
      fs (videoFilename title) ≠ .info v.ContentLength) ∧
    (∀ err, Event.rename (videoFilename title) (outputFilename title) (some err) ∈
        (downloadAndMerge yd w fs v (some a) title).trace →
      (downloadAndMerge yd w fs v (some a) title).outcome = .returned (some err)) ∧
    (fs (videoFilename title) = .info v.ContentLength →
      (downloadAndMerge yd w fs v (some a) title).outcome = .returned none) := by
  have hVA := videoFilename_ne_audioFilename title
  have hVO := videoFilename_ne_outputFilename title
  have hAO := audioFilename_ne_outputFilename title
  have h1 := checkFileExists_no_failure fs (videoFilename title) v.ContentLength hvideo
  have h3 : ∀ fs2 : FS, fs2 (outputFilename title) = fs (outputFilename title) →
      checkFileExists fs2 (outputFilename title)
        (wrapInt64 (v.ContentLength + a.ContentLength)) = (true, none) := by
    intro fs2 h; simp [checkFileExists, h, hout]
  by_cases hb1 : fs (videoFilename title) = .info v.ContentLength
  · simp only [hb1, decide_True] at h1
    have h2 := checkFileExists_no_failure fs (audioFilename title) a.ContentLength haudio
    have h4 := h3 fs rfl
    have h5 := h3 (downloadStream w.audioStream fs (audioFilename title)).1
      (downloadStream_other _ _ _ _ hAO.symm)
    by_cases hb2 : fs (audioFilename title) = .info a.ContentLength
    · simp only [hb2, decide_True] at h2
      simp [downloadAndMerge, h1, h2, h4, h5, hb1]
    · simp only [hb2, decide_False] at h2
      simp [downloadAndMerge, h1, h2, h4, h5, hb1, hVA]
  · simp only [hb1, decide_False] at h1
    have hA1 : (downloadStream w.videoStream fs (videoFilename title)).1 (audioFilename title)
        = fs (audioFilename title) := downloadStream_other _ _ _ _ hVA.symm
    have hO1 : (downloadStream w.videoStream fs (videoFilename title)).1 (outputFilename title)
        = fs (outputFilename title) := downloadStream_other _ _ _ _ hVO.symm
    have h2 := checkFileExists_no_failure
      (downloadStream w.videoStream fs (videoFilename title)).1
      (audioFilename title) a.ContentLength (by rw [hA1]; exact haudio)
    have h4 := h3 _ hO1
    have h5 := h3 (downloadStream w.audioStream
      (downloadStream w.videoStream fs (videoFilename title)).1 (audioFilename title)).1
      (by rw [downloadStream_other _ _ _ _ hAO.symm, hO1])
    rw [hA1] at h2
    by_cases hb2 : fs (audioFilename title) = .info a.ContentLength
    · simp only [hb2, decide_True] at h2
      simp [downloadAndMerge, h1, h2, h4, h5, hb1]
      intro err h
      exact h.symm
    · simp only [hb2, decide_False] at h2
      simp [downloadAndMerge, h1, h2, h4, h5, hb1, hVA]
      intro err h
      exact h.symm

/-- C6 as stated fails: with the video file present at the declared length
and no merged file, a failing presence check of the audio file (here
`os.Stat` answers error 40 on a symbolic link that points to itself) ends
the run with that error before any merge. -/
theorem downloadAndMerge_audio_stat_failure :
    (downloadAndMerge NewYouTubeDownloader goodWorld
        (fsOf [(utf8 "clip_video.mp4".toList, .info 5000),
          (utf8 "clip_audio.mp4".toList, .failure 40)])
        videoOnlyFormat (some audioOnlyFormat) "clip".toList).trace = [] ∧
    (downloadAndMerge NewYouTubeDownloader goodWorld
        (fsOf [(utf8 "clip_video.mp4".toList, .info 5000),
          (utf8 "clip_audio.mp4".toList, .failure 40)])
        videoOnlyFormat (some audioOnlyFormat) "clip".toList).outcome
      = .returned (some (.statFailed 40)) := by
  refine ⟨by decide, by decide⟩

/-- C6, amended: in a run with an audio variant selected, the video file
present with exactly the declared length, no merged file, and a presence
check of the audio file that does not fail: the video stream is not
downloaded and the merge is invoked on the video and audio files; when the
merge succeeds the run returns without error, with `overwrite` unset
`os.Remove` is called on the video file and on the audio file (and the video
file is gone when the system allows the removal), with `overwrite` set
nothing is removed and the video file stays; when the merge fails its error
is returned, nothing is removed and the video file stays. -/
theorem downloadAndMerge_video_present (yd : YouTubeDownloader) (w : World) (fs : FS)
    (v a : Format) (title : GoString)
    (hvideo : fs (videoFilename title) = .info v.ContentLength)
    (hout : fs (outputFilename title) = .notExist)
    (haudio : ∀ errno, fs (audioFilename title) ≠ .failure errno) :
    (∀ f e, Event.download f (videoFilename title) e ∉
        (downloadAndMerge yd w fs v (some a) title).trace) ∧
    (∃ e, Event.merge (videoFilename title) (audioFilename title) (outputFilename title) e ∈
        (downloadAndMerge yd w fs v (some a) title).trace) ∧
    (∀ n, w.ffmpeg = .succeeded n →
      (downloadAndMerge yd w fs v (some a) title).outcome = .returned none ∧
      (yd.overwrite = false →
        Event.remove (videoFilename title) ∈ (downloadAndMerge yd w fs v (some a) title).trace ∧
        Event.remove (audioFilename title) ∈ (downloadAndMerge yd w fs v (some a) title).trace ∧
        (w.removeOk = true →
          (downloadAndMerge yd w fs v (some a) title).fs (videoFilename title) = .notExist)) ∧
      (yd.overwrite = true →
        (∀ p, Event.remove p ∉ (downloadAndMerge yd w fs v (some a) title).trace) ∧
        (downloadAndMerge yd w fs v (some a) title).fs (videoFilename title)
          = .info v.ContentLength)) ∧
    (∀ l, w.ffmpeg = .failed l →
      (downloadAndMerge yd w fs v (some a) title).outcome = .returned (some .mergeFailed) ∧
      (∀ p, Event.remove p ∉ (downloadAndMerge yd w fs v (some a) title).trace) ∧
      (downloadAndMerge yd w fs v (some a) title).fs (videoFilename title)
        = .info v.ContentLength) := by
  have hVA := videoFilename_ne_audioFilename title
  have hVO := videoFilename_ne_outputFilename title
  have hAO := audioFilename_ne_outputFilename title
  have h1 : checkFileExists fs (videoFilename title) v.ContentLength = (true, none) := by
    simp [checkFileExists, hvideo]
  have h2 := checkFileExists_no_failure fs (audioFilename title) a.ContentLength haudio
  have h3 : ∀ fs2 : FS, fs2 (outputFilename title) = .notExist →
      checkFileExists fs2 (outputFilename title)
        (wrapInt64 (v.ContentLength + a.ContentLength)) = (false, none) := by
    intro fs2 h; simp [checkFileExists, h]
  have h4 := h3 fs hout
  have h5 := h3 (downloadStream w.audioStream fs (audioFilename title)).1
    (by rw [downloadStream_other _ _ _ _ hAO.symm]; exact hout)
  have h6 := downloadStream_other w.audioStream fs _ _ hVA
  by_cases hb : fs (audioFilename title) = .info a.ContentLength
  · simp only [hb, decide_True] at h2
    cases hw : w.ffmpeg with
    | failed l =>
      cases l <;> simp [downloadAndMerge, h1, h2, h4, h5, hw, mergeVideoAudio, hvideo,
        FS.set_other, hVO, hVA]
    | succeeded n =>
      cases ho : yd.overwrite <;>
        simp [downloadAndMerge, h1, h2, h4, h5, hw, mergeVideoAudio, hvideo, FS.set_other,
          hVO, hVA, ho]
      intro hr
      rw [hr, Remove_other _ _ _ _ hVA]
      exact Remove_same _ _ v.ContentLength (by rw [FS.set_other _ _ _ _ hVO]; exact hvideo)
  · simp only [hb, decide_False] at h2
    cases hw : w.ffmpeg with
    | failed l =>
      cases l <;> simp [downloadAndMerge, h1, h2, h4, h5, hw, mergeVideoAudio, hvideo,
        FS.set_other, hVO, hVA, hVA.symm, h6]
    | succeeded n =>
      cases ho : yd.overwrite <;>
        simp [downloadAndMerge, h1, h2, h4, h5, hw, mergeVideoAudio, hvideo, FS.set_other,
          hVO, hVA, hVA.symm, ho, h6]
      intro hr
      rw [hr, Remove_other _ _ _ _ hVA]
      exact Remove_same _ _ v.ContentLength
        (by rw [FS.set_other _ _ _ _ hVO, h6]; exact hvideo)

/-- Witness for `downloadAndMerge_video_present`: the video file is present
with the declared 5000 bytes, nothing else exists, every external action
succeeds and `overwrite` is unset. -/
theorem downloadAndMerge_video_present_witness :
    (downloadAndMerge NewYouTubeDownloader goodWorld
        (fsOf [(utf8 "clip_video.mp4".toList, .info 5000)])
        videoOnlyFormat (some audioOnlyFormat) "clip".toList).outcome = .returned none ∧
    Event.remove (videoFilename "clip".toList) ∈
      (downloadAndMerge NewYouTubeDownloader goodWorld
        (fsOf [(utf8 "clip_video.mp4".toList, .info 5000)])
        videoOnlyFormat (some audioOnlyFormat) "clip".toList).trace ∧
    Event.remove (audioFilename "clip".toList) ∈
      (downloadAndMerge NewYouTubeDownloader goodWorld
        (fsOf [(utf8 "clip_video.mp4".toList, .info 5000)])
        videoOnlyFormat (some audioOnlyFormat) "clip".toList).trace := by
  have h := downloadAndMerge_video_present NewYouTubeDownloader goodWorld
    (fsOf [(utf8 "clip_video.mp4".toList, .info 5000)])
    videoOnlyFormat audioOnlyFormat "clip".toList (by decide) (by decide)
    (no_failure_of_notExist (by decide))
  have h3 := h.2.2.1 4321 rfl
  exact ⟨h3.1, (h3.2.1 rfl).1, (h3.2.1 rfl).2.1⟩

/-! ## File name sanitizer -/

theorem dropWhile_eq_self_of_head {α : Type} (p : α → Bool) (l : List α)
    (h : ∀ x, l.head? = some x → p x = false) : l.dropWhile p = l := by
  cases l with
  | nil => rfl
  | cons a t =>
    have := h a rfl
    simp [List.dropWhile, this]

theorem TrimSpace_eq_self (s : GoString)
    (hh : ∀ c, s.head? = some c → isSpace c = false)
    (hl : ∀ c, s.getLast? = some c → isSpace c = false) : TrimSpace s = s := by
  unfold TrimSpace
  rw [dropWhile_eq_self_of_head isSpace s hh,
    dropWhile_eq_self_of_head isSpace s.reverse (by simpa using hl), List.reverse_reverse]

theorem TrimSpace_eq_nil (s : GoString) (h : ∀ c ∈ s, isSpace c = true) : TrimSpace s = [] := by
  unfold TrimSpace
  rw [List.dropWhile_eq_nil_iff.2 h]
  rfl

theorem isDisallowed_of_isSpace (c : Char) (h : isSpace c = true) : isDisallowed c = false := by
  simp only [isSpace, Bool.or_eq_true, beq_iff_eq, Bool.and_eq_true, decide_eq_true_eq] at h
  simp only [isDisallowed, Bool.or_eq_false_iff, beq_eq_false_iff_ne, ne_eq]
  omega

theorem utf8_length_le (s : GoString) : s.length ≤ (utf8 s).length := by
  induction s with
  | nil => simp [utf8]
  | cons c cs ih =>
    have : 1 ≤ (utf8EncodeRune c).length := by
      unfold utf8EncodeRune
      split_ifs <;> simp
    simp only [utf8, List.length_append, List.length_cons]
    omega

theorem utf8_replicate_length (n : Nat) (c : Char) :
    (utf8 (List.replicate n c)).length = n * (utf8EncodeRune c).length := by
  induction n with
  | zero => simp [utf8]
  | succ k ih =>
    simp only [List.replicate_succ, utf8, List.length_append, ih]
    ring

theorem utf8_ascii (s : GoString) (h : ∀ c ∈ s, c.toNat < 128) : utf8 s = s.map Char.toNat := by
  induction s with
  | nil => rfl
  | cons c cs ih =>
    have hc : c.toNat < 128 := h c (List.mem_cons_self _ _)
    have hcs := ih (fun d hd => h d (List.mem_cons_of_mem _ hd))
    simp [utf8, utf8EncodeRune, hc, hcs]

theorem utf8_replicate_underscore (n : Nat) :
    utf8 (List.replicate n '_') = List.replicate n 95 := by
  rw [utf8_ascii _ (by intro c hc; rw [List.eq_of_mem_replicate hc]; decide)]
  simp

theorem makeSafeFilename_length_le (title : GoString) :
    (makeSafeFilename title).length ≤ 200 := by
  simp only [makeSafeFilename]
  split_ifs with h1 h2 h2
  · simp
  · omega
  · simp
  · omega

theorem makeSafeFilename_clean (title : GoString) (hne : title ≠ [])
    (hd : ∀ c ∈ title, isDisallowed c = false)
    (hh : ∀ c, title.head? = some c → isSpace c = false)
    (hl : ∀ c, title.getLast? = some c → isSpace c = false) :
    makeSafeFilename title
      = if (utf8 title).length > 200 then (utf8 title).take 200 else utf8 title := by
  have hmap : title.map (fun c => if isDisallowed c then '_' else c) = title := by
    conv_rhs => rw [← List.map_id title]
    apply List.map_congr_left
    intro c hc
    simp [hd c hc]
  simp only [makeSafeFilename, hmap, TrimSpace_eq_self title hh hl, if_neg hne]

/-- C7 as stated fails: the all-illegal title `???` yields `___`, not the
placeholder `video`. -/
theorem makeSafeFilename_question_marks :
    makeSafeFilename "???".toList = utf8 "___".toList ∧
    makeSafeFilename "???".toList ≠ utf8 "video".toList := by
  refine ⟨by decide, by decide⟩

/-- C7, amended: for a non-empty title made up only of characters of the
disallowed set, `makeSafeFilename` returns one `_` (byte 95) for each
character of the title, cut to 200, which is never the placeholder; the
placeholder `video` is what it returns for a title that is empty or made up
only of white space. -/
theorem makeSafeFilename_all_disallowed (title : GoString) :
    (title ≠ [] → (∀ c ∈ title, isDisallowed c = true) →
      makeSafeFilename title = List.replicate (min title.length 200) 95 ∧
      makeSafeFilename title ≠ utf8 "video".toList) ∧
    ((∀ c ∈ title, isSpace c = true) → makeSafeFilename title = utf8 "video".toList) := by
  constructor
  · intro hne hall
    have hmap : title.map (fun c => if isDisallowed c then '_' else c)
        = List.replicate title.length '_' := by
      rw [List.eq_replicate_iff]
      refine ⟨by simp, ?_⟩
      intro b hb
      obtain ⟨c, hc, rfl⟩ := List.mem_map.1 hb
      simp [hall c hc]
    have hpos : 0 < title.length := List.length_pos.2 hne
    have htrim : TrimSpace (List.replicate title.length '_') = List.replicate title.length '_' := by
      apply TrimSpace_eq_self
      · intro c hc
        obtain ⟨k, hk⟩ : ∃ k, title.length = k + 1 := ⟨title.length - 1, by omega⟩
        rw [hk, List.replicate_succ] at hc
        cases hc
        decide
      · intro c hc
        rw [← List.head?_reverse, List.reverse_replicate] at hc
        obtain ⟨k, hk⟩ : ∃ k, title.length = k + 1 := ⟨title.length - 1, by omega⟩
        rw [hk, List.replicate_succ] at hc
        cases hc
        decide
    have hne2 : List.replicate title.length '_' ≠ [] := by
      obtain ⟨k, hk⟩ : ∃ k, title.length = k + 1 := ⟨title.length - 1, by omega⟩
      rw [hk, List.replicate_succ]
      exact List.cons_ne_nil _ _
    have hres : makeSafeFilename title = List.replicate (min title.length 200) 95 := by
      simp only [makeSafeFilename, hmap, htrim, if_neg hne2, utf8_replicate_underscore,
        List.length_replicate, List.take_replicate]
      split_ifs with h
      · rw [Nat.min_comm]
      · rw [Nat.min_eq_left (by omega)]
    refine ⟨hres, ?_⟩
    rw [hres]
    obtain ⟨k, hk⟩ : ∃ k, min title.length 200 = k + 1 :=
      ⟨min title.length 200 - 1, by omega⟩
    have hv : utf8 "video".toList = [118, 105, 100, 101, 111] := by decide
    rw [hk, List.replicate_succ, hv]
    intro h
    simp at h
  · intro hall
    have hmap : title.map (fun c => if isDisallowed c then '_' else c) = title := by
      conv_rhs => rw [← List.map_id title]
      apply List.map_congr_left
      intro c hc
      simp [isDisallowed_of_isSpace c (hall c hc)]
    simp only [makeSafeFilename, hmap, TrimSpace_eq_nil title hall, if_true]
    decide

/-- Witness for `makeSafeFilename_all_disallowed`: the title `???`. -/
theorem makeSafeFilename_all_disallowed_witness :
    makeSafeFilename "???".toList = List.replicate (min "???".toList.length 200) 95 ∧
    makeSafeFilename "???".toList ≠ utf8 "video".toList :=
  (makeSafeFilename_all_disallowed "???".toList).1 (by decide) (by decide)

/-- C8 as stated fails for non-ASCII titles: for the title of 201 letters
`é` (no disallowed character, no white space) the result is not the first
200 characters of the title: these take 400 bytes, the result has at most 200. -/
theorem makeSafeFilename_cuts_bytes_not_characters :
    ¬ (∀ title : GoString, 200 < title.length →
        (∀ c ∈ title, isDisallowed c = false) →
        (∀ c, title.head? = some c → isSpace c = false) →
        (∀ c, title.getLast? = some c → isSpace c = false) →
        makeSafeFilename title = utf8 (title.take 200)) := by
  intro h
  have hc : ∀ c ∈ List.replicate 201 'é', c = 'é' := fun c hc => List.eq_of_mem_replicate hc
  have key := h (List.replicate 201 'é') (by rw [List.length_replicate]; omega)
    (by intro c hm; rw [hc c hm]; decide)
    (by intro c hm; rw [hc c (List.mem_of_mem_head? hm)]; decide)
    (by intro c hm; rw [hc c (List.mem_of_mem_getLast? hm)]; decide)
  have h1 := makeSafeFilename_length_le (List.replicate 201 'é')
  rw [key, List.take_replicate, utf8_replicate_length] at h1
  revert h1
  decide

/-- C8, amended: the result of `makeSafeFilename` is at most 200 bytes long
(hence at most 200 characters); for a title whose UTF-8 encoding is longer
than 200 bytes, with no disallowed character and no surrounding white space,
the result is exactly the first 200 bytes of the title; for such a title of
more than 200 characters, all ASCII, that is exactly the first 200 characters
of the title. -/
theorem makeSafeFilename_truncation (title : GoString) :
    (makeSafeFilename title).length ≤ 200 ∧
    (200 < (utf8 title).length →
      (∀ c ∈ title, isDisallowed c = false) →
      (∀ c, title.head? = some c → isSpace c = false) →
      (∀ c, title.getLast? = some c → isSpace c = false) →
      makeSafeFilename title = (utf8 title).take 200) ∧
    (200 < title.length → (∀ c ∈ title, c.toNat < 128) →
      (∀ c ∈ title, isDisallowed c = false) →
      (∀ c, title.head? = some c → isSpace c = false) →
      (∀ c, title.getLast? = some c → isSpace c = false) →
      makeSafeFilename title = utf8 (title.take 200) ∧
      (makeSafeFilename title).length = 200) := by
  refine ⟨makeSafeFilename_length_le title, ?_, ?_⟩
  · intro hlen hd hh hl
    have hne : title ≠ [] := by
      intro h
      rw [h] at hlen
      simp [utf8] at hlen
    rw [makeSafeFilename_clean title hne hd hh hl, if_pos hlen]
  · intro hlen hascii hd hh hl
    have hne : title ≠ [] := by
      intro h
      rw [h] at hlen
      simp at hlen
    have hlen2 : 200 < (utf8 title).length := lt_of_lt_of_le hlen (utf8_length_le title)
    have htake : ∀ c ∈ title.take 200, c.toNat < 128 :=
      fun c hc => hascii c (List.mem_of_mem_take hc)
    have hres : makeSafeFilename title = utf8 (title.take 200) := by
      rw [makeSafeFilename_clean title hne hd hh hl, if_pos hlen2, utf8_ascii title hascii,
        utf8_ascii _ htake, List.map_take]
    refine ⟨hres, ?_⟩
    rw [hres, utf8_ascii _ htake, List.length_map, List.length_take]
    omega

/-- Witness for `makeSafeFilename_truncation`: a legal title of 300 letters
`a` is cut to its first 200 characters. -/
theorem makeSafeFilename_truncation_witness :
    makeSafeFilename (List.replicate 300 'a') = utf8 ((List.replicate 300 'a').take 200) ∧
    (makeSafeFilename (List.replicate 300 'a')).length = 200 :=
  (makeSafeFilename_truncation (List.replicate 300 'a')).2.2
    (by rw [List.length_replicate]; omega)
    (by intro c hc; rw [List.eq_of_mem_replicate hc]; decide)
    (by intro c hc; rw [List.eq_of_mem_replicate hc]; decide)
    (by intro c hm; rw [List.eq_of_mem_replicate (List.mem_of_mem_head? hm)]; decide)
    (by intro c hm; rw [List.eq_of_mem_replicate (List.mem_of_mem_getLast? hm)]; decide)

/-! ## Transcode progress parser -/

theorem digits_foldl_ge (ds : GoString) (n : Nat) :
    n ≤ ds.foldl (fun n c => n * 10 + (c.toNat - 48)) n := by
  induction ds generalizing n with
  | nil => simp
  | cons c cs ih =>
    simp only [List.foldl_cons]
    have := ih (n * 10 + (c.toNat - 48))
    omega

theorem parseUintLoop_digits (ds : GoString) (n : Nat)
    (hd : ∀ c ∈ ds, isDigit c = true)
    (hr : ds.foldl (fun n c => n * 10 + (c.toNat - 48)) n ≤ maxUint64) :
    parseUintLoop n ds = (ds.foldl (fun n c => n * 10 + (c.toNat - 48)) n, none) := by
  induction ds generalizing n with
  | nil => simp [parseUintLoop]
  | cons c cs ih =>
    have hc := hd c (List.mem_cons_self _ _)
    simp only [isDigit, Bool.and_eq_true, decide_eq_true_eq] at hc
    simp only [List.foldl_cons] at hr ⊢
    have hge := digits_foldl_ge cs (n * 10 + (c.toNat - 48))
    have hr2 : List.foldl (fun n c => n * 10 + (c.toNat - 48)) (n * 10 + (c.toNat - 48)) cs
        ≤ 18446744073709551615 := hr
    have hmax : maxUint64 = 18446744073709551615 := rfl
    unfold parseUintLoop
    rw [if_pos hc, if_neg (by rw [hmax]; omega), if_neg (by rw [hmax]; omega)]
    exact ih _ (fun d hd2 => hd d (List.mem_cons_of_mem _ hd2)) hr

theorem ParseInt_digits (ds : GoString) (hne : ds ≠ []) (hd : ∀ c ∈ ds, isDigit c = true)
    (hr : digitsValue ds < 9223372036854775808) :
    ParseInt ds = ((digitsValue ds : Int), none) := by
  cases ds with
  | nil => exact absurd rfl hne
  | cons c cs =>
    have hc := hd c (List.mem_cons_self _ _)
    have h1 : (c == '-') = false := by
      rw [beq_eq_false_iff_ne]; intro h; subst h; revert hc; decide
    have h2 : (c == '+') = false := by
      rw [beq_eq_false_iff_ne]; intro h; subst h; revert hc; decide
    have hmax : maxUint64 = 18446744073709551615 := rfl
    have h3 : ParseUint (c :: cs) = (digitsValue (c :: cs), none) := by
      unfold ParseUint
      rw [if_neg (List.cons_ne_nil _ _)]
      exact parseUintLoop_digits _ 0 hd (by unfold digitsValue at hr; rw [hmax]; omega)
    simp only [ParseInt, h1, h2, Bool.or_false, h3, Bool.false_eq_true, if_false,
      Bool.not_false, Bool.true_and, Bool.false_and, decide_eq_true_eq]
    rw [if_neg (by omega)]

theorem matchDurationAt_none (c : Char) (cs : GoString) (h : c ≠ 'D') :
    matchDurationAt (c :: cs) = none := by
  have hp : ("Duration: ".toList.isPrefixOf (c :: cs)) = false := by
    show (('D' :: "uration: ".toList).isPrefixOf (c :: cs)) = false
    simp [List.isPrefixOf, Ne.symm h]
  unfold matchDurationAt
  simp only [hp, Bool.false_eq_true, if_false]

theorem findDuration_none (s : GoString) (h : ∀ c ∈ s, c ≠ 'D') : findDuration s = none := by
  induction s with
  | nil => rfl
  | cons c cs ih =>
    simp only [findDuration, matchDurationAt_none c cs (h c (List.mem_cons_self _ _))]
    exact ih (fun d hd => h d (List.mem_cons_of_mem _ hd))

theorem splitKeyValue_append (k v : GoString) (h : ∀ c ∈ k, c ≠ '=') :
    splitKeyValue (k ++ '=' :: v) = some (k, v) := by
  induction k with
  | nil => simp [splitKeyValue]
  | cons c cs ih =>
    have hc : c ≠ '=' := h c (List.mem_cons_self _ _)
    have ih2 := ih (fun d hd => h d (List.mem_cons_of_mem _ hd))
    show splitKeyValue (c :: (cs ++ '=' :: v)) = some (c :: cs, v)
    unfold splitKeyValue
    rw [if_neg hc, ih2]

theorem isSpace_of_isDigit (c : Char) (h : isDigit c = true) : isSpace c = false := by
  simp only [isDigit, Bool.and_eq_true, decide_eq_true_eq] at h
  simp only [isSpace, Bool.or_eq_false_iff, beq_eq_false_iff_ne, ne_eq, Bool.and_eq_false_imp,
    decide_eq_true_eq, decide_eq_false_iff_not]
  omega

theorem ne_of_isDigit (c d : Char) (h : isDigit c = true) (hd : isDigit d = false) : c ≠ d := by
  intro hcd
  rw [hcd, hd] at h
  cases h

theorem parseLine_out_time (task : Task) (ds : GoString) (hne : ds ≠ [])
    (hd : ∀ c ∈ ds, isDigit c = true) (hr : digitsValue ds < 9223372036855000) :
    parseLine task ("out_time_ms=".toList ++ ds)
      = task.SetCurrent (((digitsValue ds / 1000 : Nat) : Int) * Millisecond) := by
  have hline : "out_time_ms=".toList ++ ds = "out_time_ms".toList ++ '=' :: ds := by
    show _ = ("out_time_ms".toList ++ ['=']) ++ ds
    rfl
  have hD : ∀ c ∈ "out_time_ms=".toList ++ ds, c ≠ 'D' := by
    intro c hc
    rcases List.mem_append.1 hc with h | h
    · exact (by decide : ∀ c ∈ "out_time_ms=".toList, c ≠ 'D') c h
    · exact ne_of_isDigit c 'D' (hd c h) (by decide)
  have hsplit : splitKeyValue ("out_time_ms=".toList ++ ds)
      = some ("out_time_ms".toList, ds) := by
    rw [hline]
    exact splitKeyValue_append _ _ (by decide)
  have htrim : TrimSpace ds = ds :=
    TrimSpace_eq_self ds
      (fun c hc => isSpace_of_isDigit c (hd c (List.mem_of_mem_head? hc)))
      (fun c hc => isSpace_of_isDigit c (hd c (List.mem_of_mem_getLast? hc)))
  have hkey : TrimSpace "out_time_ms".toList = "out_time_ms".toList := by decide
  have hparse := ParseInt_digits ds hne hd (by omega)
  have hwrap : wrapInt64 (Int.tdiv (digitsValue ds : Int) 1000 * Millisecond)
      = ((digitsValue ds / 1000 : Nat) : Int) * Millisecond := by
    have h1 : Int.tdiv (digitsValue ds : Int) 1000 = ((digitsValue ds / 1000 : Nat) : Int) := by
      rw [Int.tdiv_eq_ediv (by omega) (by omega)]
      norm_cast
    rw [h1]
    unfold wrapInt64 Millisecond
    omega
  simp only [parseLine, findDuration_none _ hD, hsplit, htrim, hkey, if_true, hparse, hwrap]

theorem parseLine_progress_end (task : Task) :
    parseLine task "progress=end".toList = task.SetCurrent task.Total := by
  have hfd : findDuration "progress=end".toList = none := by decide
  have hsplit : splitKeyValue "progress=end".toList
      = some ("progress".toList, "end".toList) := by decide
  have hk : TrimSpace "progress".toList = "progress".toList := by decide
  have hv : TrimSpace "end".toList = "end".toList := by decide
  simp only [parseLine, hfd, hsplit, hk, hv]
  rw [if_neg (by decide), if_neg (by decide), if_pos trivial, if_pos trivial]

/-- C9 fails on the code: the fractional digits of the banner are read as a
count of milliseconds.  `Duration: 00:01:30.50` (90.5 seconds) sets the total
to 90050 ms instead of 90500 ms; the banner `Duration: 00:01:30.00` of the
claim gives 90000 ms; `Current` is not touched. -/
theorem ParseFFmpegProgress_duration_fraction :
    ParseFFmpegProgress ["Duration: 00:01:30.50".toList] (mergeTask 0)
      = ⟨"Merging".toList, 90050 * Millisecond, 0, true⟩ ∧
    (ParseFFmpegProgress ["Duration: 00:01:30.50".toList] (mergeTask 0)).Total
      ≠ 90500 * Millisecond ∧
    ParseFFmpegProgress ["Duration: 00:01:30.00".toList] (mergeTask 0)
      = ⟨"Merging".toList, 90000 * Millisecond, 0, true⟩ := by
  refine ⟨by decide, by decide, by decide⟩

/-- C10 as stated fails.  With total 90000 ms, the line `out_time_ms=1500000`
(1.5 seconds) sets `Current` to 1500 ms: the remainder below a second is
kept, only the remainder below a millisecond is dropped.  The line
`out_time_ms=10000000000000000` leaves the 64-bit range of nanoseconds and
sets `Current` to a negative value instead of the cap. -/
theorem ParseFFmpegProgress_out_time_not_whole_seconds :
    (ParseFFmpegProgress ["out_time_ms=1500000".toList]
        (mergeTask (90000 * Millisecond))).Current = 1500 * Millisecond ∧
    (ParseFFmpegProgress ["out_time_ms=1500000".toList]
        (mergeTask (90000 * Millisecond))).Current ≠ 1000 * Millisecond ∧
    (ParseFFmpegProgress ["out_time_ms=10000000000000000".toList]
        (mergeTask (90000 * Millisecond))).Current = -8446744073709551616 := by
  refine ⟨by decide, by decide, by decide⟩

/-- C10, amended: for a task with total `T` and a line `out_time_ms=v`, `v`
a run of decimal digits of value below 9223372036855000, followed by the line
`progress=end`: after the first line `Current` is `v / 1000` milliseconds
(the remainder below a millisecond dropped), capped at `T`; after the second
line `Current` is exactly `T`; `Total` stays `T` throughout. -/
theorem ParseFFmpegProgress_out_time_then_end (task : Task) (ds : GoString) (hne : ds ≠ [])
    (hd : ∀ c ∈ ds, isDigit c = true) (hr : digitsValue ds < 9223372036855000) :
    (ParseFFmpegProgress ["out_time_ms=".toList ++ ds] task).Current
      = min (((digitsValue ds / 1000 : Nat) : Int) * Millisecond) task.Total ∧
    (ParseFFmpegProgress ["out_time_ms=".toList ++ ds] task).Total = task.Total ∧
    (ParseFFmpegProgress ["out_time_ms=".toList ++ ds, "progress=end".toList] task).Current
      = task.Total ∧
    (ParseFFmpegProgress ["out_time_ms=".toList ++ ds, "progress=end".toList] task).Total
      = task.Total := by
  simp only [ParseFFmpegProgress, List.foldl_cons, List.foldl_nil,
    parseLine_out_time task ds hne hd hr, parseLine_progress_end, Task.SetCurrent]
  refine ⟨?_, trivial, ?_, trivial⟩
  · split_ifs with h
    · rw [min_eq_right (le_of_lt h)]
    · rw [min_eq_left (not_lt.1 h)]
  · split_ifs with h
    · rfl
    · rfl

/-- Witness for `ParseFFmpegProgress_out_time_then_end`: total 90000 ms and
the line `out_time_ms=45000000`. -/
theorem ParseFFmpegProgress_out_time_then_end_witness :
    (ParseFFmpegProgress ["out_time_ms=".toList ++ "45000000".toList]
        (mergeTask (90000 * Millisecond))).Current = 45000 * Millisecond ∧
    (ParseFFmpegProgress ["out_time_ms=".toList ++ "45000000".toList, "progress=end".toList]
        (mergeTask (90000 * Millisecond))).Current = 90000 * Millisecond ∧
    (ParseFFmpegProgress ["out_time_ms=".toList ++ "45000000".toList, "progress=end".toList]
        (mergeTask (90000 * Millisecond))).Total = 90000 * Millisecond := by
  have h := ParseFFmpegProgress_out_time_then_end (mergeTask (90000 * Millisecond))
    "45000000".toList (by decide) (by decide) (by decide)
  refine ⟨?_, h.2.2.1, h.2.2.2⟩
  rw [h.1]
  decide

end YoutubeDownloader
